import Mathlib

/-
Verification development for the lesson-plan generator (src/app.py).

The grid model, the structure-inference engine (`get_table_structure`),
the chunked generation orchestrator (`generate_deep_content_chunked`),
and the document writer (`set_cell_text_preserving_style` and the fill
loop of `main`) are embedded shallowly as executable Lean functions.
Python strings are modelled by `String`; `str.strip` by `pyStrip`;
single-character `str.replace(c, "")` by `pyRemoveChar`; the `in`
substring test by `pyIn`; `dict.fromkeys` de-duplication by `pyDedup`;
Python dicts carrying generated content by association lists (`Dict`)
whose lookup returns the most recently set value; Python sets by lists
with membership.  The generative backend is an oracle parameter
`(batch keys, attempt index) -> parsed JSON object or failure`, which
abstracts `chain.invoke` composed with `extract_json_safe`.
-/

namespace SmartClass

/-! ## Python string primitives -/

def stripChars (l : List Char) : List Char :=
  ((l.dropWhile Char.isWhitespace).reverse.dropWhile Char.isWhitespace).reverse

/-- Model of Python `str.strip()`. -/
def pyStrip (s : String) : String := ⟨stripChars s.data⟩

/-- Model of Python `str.replace(c, "")` for a single-character needle. -/
def pyRemoveChar (c : Char) (s : String) : String := ⟨s.data.filter (fun a => a ≠ c)⟩

def isPrefixL : List Char → List Char → Bool
  | [], _ => true
  | _ :: _, [] => false
  | a :: as, b :: bs => a == b && isPrefixL as bs

def isInfixL : List Char → List Char → Bool
  | n, [] => n.isEmpty
  | n, h :: hs => isPrefixL n (h :: hs) || isInfixL n hs

/-- Model of Python `needle in hay` substring test. -/
def pyIn (needle hay : String) : Bool := isInfixL needle.data hay.data

/-- Model of `dict.fromkeys`: first-occurrence-preserving de-duplication. -/
def pyDedupAux (seen : List String) : List String → List String
  | [] => []
  | x :: xs => if x ∈ seen then pyDedupAux seen xs else x :: pyDedupAux (x :: seen) xs

def pyDedup (l : List String) : List String := pyDedupAux [] l

/-! ## Grid model -/

/-- A docx table cell: `id` models the underlying XML element identity
(`cell._tc`), `text` models `cell.text`. -/
structure Cell where
  id : Nat
  text : String
deriving DecidableEq

/-- A docx table: `nCols` models `len(table.columns)`. -/
structure Table where
  nCols : Nat
  rows : List (List Cell)
deriving DecidableEq

/-- A docx document as seen by the inference engine. -/
structure Doc where
  tables : List Table
deriving DecidableEq

/-- `table.cell(r, c)`. -/
def Table.cell (t : Table) (r c : Nat) : Cell := (t.rows.getD r []).getD c ⟨0, ""⟩

/-- `"".join([c.text for r in rows for c in r.cells])`. -/
def allText (t : Table) : String :=
  String.join (List.flatten (t.rows.map (fun row => row.map (fun c => c.text))))

/-! ## Structure inference (get_table_structure) -/

def MATRIX_KEYWORDS : List String := ["教师活动", "学生活动", "设计意图"]
def HEADER_TOKENS : List String := ["教学环节", "教学内容", "教师活动", "学生活动", "设计意图"]
def PHASE_TOKENS : List String := ["课前", "课中", "课后", "巩固拓展"]
def SECTION_HEADERS : List String := ["学情分析", "教学目标", "教学资源", "教学反思"]

def is_instructional (text : String) : Bool :=
  decide (30 < text.length) ||
    (["思政案例", "确保思政", "比例可根据"].any (fun k => pyIn k text))

structure Binding where
  key_text : String
  original_text : String
  target_coords : Nat × Nat × Nat
  is_teaching_process : Bool
deriving DecidableEq

structure ScanState where
  struct : List Binding
  processed_cell_ids : List Nat
  processed_keys : List String
deriving DecidableEq

/-- Python dict insertion: overwrite in place if the key exists, else append. -/
def dictInsert (m : List (Nat × String)) (k : Nat) (v : String) : List (Nat × String) :=
  if m.any (fun p => p.1 == k) then m.map (fun p => if p.1 == k then (k, v) else p)
  else m ++ [(k, v)]

/-- The column-name map scan over the first `min 5 len(rows)` rows. -/
def buildColMap (table : Table) : List (Nat × String) :=
  (List.range (min 5 table.rows.length)).foldl (fun m r_idx =>
    (List.range table.nCols).foldl (fun m c_idx =>
      if pyStrip (table.cell r_idx c_idx).text ∈ HEADER_TOKENS then
        dictInsert m c_idx (pyStrip (table.cell r_idx c_idx).text)
      else m) m) []

/-- `"".join(list(dict.fromkeys([c.text.strip() for c in rows[r].cells])))`. -/
def rowRawText (row : List Cell) : String :=
  String.join (pyDedup (row.map (fun c => pyStrip c.text)))

/-- One `col_map` item inside the matrix-table data-row loop. -/
def matrixColStep (t_idx : Nat) (table : Table) (r : Nat) (current_phase : String)
    (st : ScanState) (p : Nat × String) : ScanState :=
  if pyStrip (table.cell r p.1).text = "" ∧ pyStrip (table.cell r p.1).text ≠ p.2 then
    if (table.cell r p.1).id ∉ st.processed_cell_ids then
      { st with
        struct := st.struct ++
          [⟨current_phase ++ " > " ++ p.2 ++ "_行" ++ toString r, p.2, (t_idx, r, p.1), true⟩],
        processed_cell_ids := (table.cell r p.1).id :: st.processed_cell_ids }
    else st
  else st

structure MatrixState where
  current_phase : String
  seen_phases : List String
  scan : ScanState
deriving DecidableEq

/-- One row of the matrix-table strategy: phase switching and data capture. -/
def processMatrixRow (t_idx : Nat) (table : Table) (col_map : List (Nat × String))
    (ms : MatrixState) (r : Nat) : MatrixState :=
  if rowRawText (table.rows.getD r []) ∈ PHASE_TOKENS then
    if rowRawText (table.rows.getD r []) = ms.current_phase then ms
    else { ms with
           current_phase := rowRawText (table.rows.getD r []),
           seen_phases := ms.seen_phases ++ [rowRawText (table.rows.getD r [])] }
  else
    { ms with scan := col_map.foldl (matrixColStep t_idx table r ms.current_phase) ms.scan }

/-- `text = cell.text.strip().replace("\n", "").replace(" ", "")`. -/
def labelText (table : Table) (r c : Nat) : String :=
  pyRemoveChar ' ' (pyRemoveChar '\n' (pyStrip (table.cell r c).text))

/-- Target choice of the generic strategy: the right neighbour when it is
blank, else the below neighbour when it is blank, else nothing (the claim
status of the chosen cell is only checked afterwards, as in the source). -/
def genericTarget (table : Table) (r c : Nat) : Option (Nat × Nat × Nat) :=
  if c + 1 < table.nCols ∧ pyStrip (table.cell r (c + 1)).text = "" then
    some (r, c + 1, (table.cell r (c + 1)).id)
  else if r + 1 < table.rows.length ∧ pyStrip (table.cell (r + 1) c).text = "" then
    some (r + 1, c, (table.cell (r + 1) c).id)
  else none

/-- Key qualification by the row's first-column section header. -/
def genericKey (table : Table) (r c : Nat) : String :=
  if pyStrip (table.cell r 0).text ∈ SECTION_HEADERS ∧
      pyStrip (table.cell r 0).text ≠ labelText table r c
  then pyStrip (table.cell r 0).text ++ " > " ++ labelText table r c
  else labelText table r c

def genericBinding (t_idx : Nat) (table : Table) (r c tr tc : Nat) : Binding :=
  ⟨genericKey table r c, labelText table r c, (t_idx, tr, tc), false⟩

/-- One cell of the generic-table strategy. -/
def processGenericCell (t_idx : Nat) (table : Table) (r c : Nat) (st : ScanState) : ScanState :=
  if labelText table r c = "" ∨ is_instructional (labelText table r c) = true then st
  else if labelText table r c ∈ st.processed_keys ∧ (labelText table r c).length < 10 then st
  else
    match genericTarget table r c with
    | none => st
    | some (tr, tc, t_id) =>
      if t_id ∉ st.processed_cell_ids then
        { st with
          struct := st.struct ++ [genericBinding t_idx table r c tr tc],
          processed_cell_ids := t_id :: st.processed_cell_ids,
          processed_keys := labelText table r c :: st.processed_keys }
      else st


/-- One table: strategy A (matrix) when a process keyword occurs in the
concatenated text, else strategy B (generic adjacency). -/
def processTable (t_idx : Nat) (table : Table) (st : ScanState) : ScanState :=
  if MATRIX_KEYWORDS.any (fun k => pyIn k (allText table)) = true then
    ((List.range table.rows.length).foldl
      (fun ms r => processMatrixRow t_idx table (buildColMap table) ms r)
      ⟨"教学过程", [], st⟩).scan
  else
    (List.range table.rows.length).foldl (fun st1 r =>
      (List.range table.nCols).foldl (fun st2 c => processGenericCell t_idx table r c st2) st1) st

def processTables : List Table → Nat → ScanState → ScanState
  | [], _, st => st
  | t :: ts, t_idx, st => processTables ts (t_idx + 1) (processTable t_idx t st)

/-- The structure-inference engine `get_table_structure`. -/
def get_table_structure (doc : Doc) : List Binding :=
  (processTables doc.tables 0 ⟨[], [], []⟩).struct

/-! ## Content dictionaries (Python dict semantics)

An association list where lookup returns the most recently set value. -/

abbrev Dict := List (String × String)

def Dict.get (m : Dict) (k : String) : Option String :=
  (m.find? (fun p => p.1 == k)).map Prod.snd

/-- `m[k] = v`. -/
def Dict.set (m : Dict) (k v : String) : Dict := (k, v) :: m

/-- `m.update(e)`. -/
def Dict.update (m : Dict) (e : List (String × String)) : Dict :=
  e.foldl (fun m p => Dict.set m p.1 p.2) m

/-- Python truthiness of an optional string (`None` and `""` are falsy). -/
def truthyStr : Option String → Bool
  | none => false
  | some s => !(s == "")

/-! ## Generation orchestrator (generate_deep_content_chunked)

The backend plus `extract_json_safe` is abstracted as an oracle
`(batch keys, attempt index) -> Option parsed-object`; `none` covers both a
raised exception and an unparseable response. -/

def BATCH_SIZE : Nat := 45

def RETRY_LIMIT : Nat := 2

abbrev Oracle := List String → Nat → Option (List (String × String))

/-- `if batch_result:` — a parsed empty object is falsy and counts as a failure. -/
def parseOutcome : Option (List (String × String)) → Option (List (String × String))
  | some l => if l.isEmpty then none else some l
  | none => none

/-- The `while retry_count < 2 and not success` loop; `fuel` is
`RETRY_LIMIT - retry_count`, and every attempt uses the same batch keys. -/
def attemptLoop (oracle : Oracle) (ks : List String) : Nat → Nat →
    Option (List (String × String))
  | _, 0 => none
  | retry_count, fuel + 1 =>
    match parseOutcome (oracle ks retry_count) with
    | some l => some l
    | none => attemptLoop oracle ks (retry_count + 1) fuel

def attemptBatch (oracle : Oracle) (ks : List String) : Option (List (String × String)) :=
  attemptLoop oracle ks 0 RETRY_LIMIT

/-- `all_keys[i*BATCH_SIZE : (i+1)*BATCH_SIZE]`. -/
def batchKeys (all_keys : List String) (i : Nat) : List String :=
  (all_keys.drop (i * BATCH_SIZE)).take BATCH_SIZE

/-- The override table: (final key, UserContext source field). -/
def OVERRIDE_SOURCES : List (String × String) :=
  [("授课时间", "时间"), ("教案序号 > 授课时间", "时间"),
   ("授课地点", "地点"), ("教案序号 > 授课地点", "地点"),
   ("授课班级", "班级"), ("授课内容 > 授课班级", "班级"),
   ("教师姓名", "教师姓名")]

/-- The `manual_overrides` dict literal. -/
def manual_overrides (user_inputs : Dict) : List (String × Option String) :=
  [("授课时间", Dict.get user_inputs "时间"),
   ("教案序号 > 授课时间", Dict.get user_inputs "时间"),
   ("授课地点", Dict.get user_inputs "地点"),
   ("教案序号 > 授课地点", Dict.get user_inputs "地点"),
   ("授课班级", Dict.get user_inputs "班级"),
   ("授课内容 > 授课班级", Dict.get user_inputs "班级"),
   ("教师姓名", Dict.get user_inputs "教师姓名")]

/-- `for k, v in manual_overrides.items(): if v: final_mapping[k] = v`. -/
def overrideStep (m : Dict) (p : String × Option String) : Dict :=
  match p.2 with
  | some v => if v ≠ "" then Dict.set m p.1 v else m
  | none => m

def applyOverrides (user_inputs : Dict) (m : Dict) : Dict :=
  (manual_overrides user_inputs).foldl overrideStep m

/-- The per-batch accumulation loop of `generate_deep_content_chunked`. -/
def batchFold (oracle : Oracle) (all_keys : List String) (n : Nat) : Dict :=
  (List.range n).foldl (fun m i =>
    match attemptBatch oracle (batchKeys all_keys i) with
    | some batch_result => Dict.update m batch_result
    | none => m) []

/-- `generate_deep_content_chunked`: batch the keys, query the backend with
retries, merge the parsed objects, then apply the deterministic overrides. -/
def generate_deep_content_chunked (oracle : Oracle) (user_inputs : Dict)
    (doc_keys : List Binding) : Dict :=
  applyOverrides user_inputs
    (batchFold oracle (doc_keys.map Binding.key_text)
      (((doc_keys.map Binding.key_text).length + (BATCH_SIZE - 1)) / BATCH_SIZE))

/-! ## Document writer -/

/-- A docx run with its style attributes (`None` when unset). -/
structure Run where
  text : String
  bold : Option Bool
  italic : Option Bool
  fontName : Option String
  fontSize : Option Nat
deriving DecidableEq

structure Paragraph where
  runs : List Run
deriving DecidableEq

/-- A docx cell as seen by the writer. -/
structure WCell where
  paragraphs : List Paragraph
deriving DecidableEq

structure WTable where
  rows : List (List WCell)
deriving DecidableEq

structure WDoc where
  tables : List WTable
deriving DecidableEq

/-- `paragraph.add_run(text)` produces a run with default (unset) styling. -/
def add_run_default (text : String) : Run := ⟨text, none, none, none, none⟩

/-- Python truthiness of `style_run.font.size` (`None` and length 0 are falsy). -/
def truthySize : Option Nat → Bool
  | none => false
  | some n => !(n == 0)

/-- `set_cell_text_preserving_style`: write `text` into the first paragraph,
carrying over the style of the first existing run when there is one. -/
def set_cell_text_preserving_style (cell : WCell) (text : String) : WCell :=
  match cell.paragraphs with
  | [] => { paragraphs := [⟨[add_run_default text]⟩] }
  | paragraph :: rest =>
    match paragraph.runs.head? with
    | some style_run =>
      { paragraphs :=
          ⟨[{ add_run_default text with
              bold := style_run.bold,
              italic := style_run.italic,
              fontName := style_run.fontName,
              fontSize := if truthySize style_run.fontSize = true
                          then style_run.fontSize else none }]⟩ :: rest }
    | none => { paragraphs := ⟨[add_run_default text]⟩ :: rest }

def listModify {α : Type} : List α → Nat → (α → α) → List α
  | [], _, _ => []
  | x :: xs, 0, f => f x :: xs
  | x :: xs, n + 1, f => x :: listModify xs n f

def WDoc.modifyCell (doc : WDoc) (t r c : Nat) (f : WCell → WCell) : WDoc :=
  ⟨listModify doc.tables t (fun tbl => ⟨listModify tbl.rows r (fun row => listModify row c f)⟩)⟩

/-- `mapping.get(key) or mapping.get(original_text)` — Python `or` also falls
through when the first lookup produces a falsy (empty) string. -/
def lookupContent (mapping : Dict) (item : Binding) : Option String :=
  if truthyStr (Dict.get mapping item.key_text) = true then Dict.get mapping item.key_text
  else Dict.get mapping item.original_text

/-- One iteration of the fill loop of `main`: write the content (if truthy)
into the target cell and bump the fill count. -/
def fillStep (mapping : Dict) (acc : WDoc × Nat) (item : Binding) : WDoc × Nat :=
  if truthyStr (lookupContent mapping item) = true then
    (WDoc.modifyCell acc.1 item.target_coords.1 item.target_coords.2.1 item.target_coords.2.2
      (fun cell => set_cell_text_preserving_style cell ((lookupContent mapping item).getD "")),
     acc.2 + 1)
  else acc

/-- The fill loop of `main` over the whole structure. -/
def fillStructure (mapping : Dict) (doc : WDoc) (items : List Binding) : WDoc × Nat :=
  items.foldl (fillStep mapping) (doc, 0)

/-- `if mapping:` — the write phase runs only when the mapping is non-empty. -/
def mainFill (mapping : Dict) (doc : WDoc) (items : List Binding) : WDoc × Nat :=
  if mapping.isEmpty = true then (doc, 0) else fillStructure mapping doc items

/-! ## Helper lemmas -/

lemma foldl_preserve {α β : Type} {P : α → Prop} (f : α → β → α) (l : List β) (st : α)
    (hstep : ∀ st x, P st → P (f st x)) (h : P st) : P (l.foldl f st) := by
  induction l generalizing st with
  | nil => exact h
  | cons x xs ih => exact ih _ (hstep _ _ h)

lemma join_singleton (s : String) : String.join [s] = s := by
  cases s; rfl

lemma pyDedupAux_all_seen : ∀ (l seen : List String), (∀ x ∈ l, x ∈ seen) →
    pyDedupAux seen l = [] := by
  intro l
  induction l with
  | nil => intro seen _; rfl
  | cons x xs ih =>
    intro seen h
    unfold pyDedupAux
    rw [if_pos (h x (List.mem_cons_self x xs))]
    exact ih seen (fun y hy => h y (List.mem_cons_of_mem x hy))

lemma pyDedup_const (l : List String) (tok : String) (hne : l ≠ [])
    (h : ∀ x ∈ l, x = tok) : pyDedup l = [tok] := by
  cases l with
  | nil => exact absurd rfl hne
  | cons x xs =>
    have hx : x = tok := h x (List.mem_cons_self x xs)
    subst hx
    unfold pyDedup pyDedupAux
    rw [if_neg (List.not_mem_nil x)]
    rw [pyDedupAux_all_seen xs [x]
      (fun y hy => by rw [h y (List.mem_cons_of_mem x hy)]; exact List.mem_cons_self x [])]

lemma rowRawText_const (row : List Cell) (tok : String) (hne : row ≠ [])
    (h : ∀ c ∈ row, pyStrip c.text = tok) : rowRawText row = tok := by
  unfold rowRawText
  rw [pyDedup_const (row.map (fun c => pyStrip c.text)) tok
    (by simpa using hne)
    (by intro x hx
        obtain ⟨c, hc, rfl⟩ := List.mem_map.mp hx
        exact h c hc)]
  exact join_singleton tok

/-! ## C9: inference is deterministic and idempotent

`get_table_structure` never mutates the document (the Python source only
reads cell text during inference); its embedding is therefore a pure
function of the document, and running it twice on the same unmodified
document yields identical ordered structures. -/

/-- C9: structure inference is deterministic — two runs on the same
unmodified document produce identical ordered Structures (same Bindings,
keys, targets and order). -/
theorem inference_deterministic (d1 d2 : Doc) (h : d1 = d2) :
    get_table_structure d1 = get_table_structure d2 := by rw [h]

def docC9 : Doc := ⟨[⟨2, [[⟨1, "课程名称"⟩, ⟨2, ""⟩]]⟩]⟩

/-- C9 witness: the two runs on a concrete document coincide. -/
theorem inference_deterministic_witness :
    get_table_structure docC9 = get_table_structure docC9 :=
  inference_deterministic docC9 docC9 rfl

/-! ## C8: style-preserving cell writing -/

/-- C8: writing into a cell whose first paragraph has a first run carries
that run's bold/italic/font-family over to the single new run (font size
only when truthy); a cell with paragraphs but no runs gets the text with
default styling; a cell with no paragraphs gets one new paragraph holding
the text. -/
theorem style_preservation (cell : WCell) (text : String) :
    (∀ p rest r0 rs, cell.paragraphs = p :: rest → p.runs = r0 :: rs →
      set_cell_text_preserving_style cell text =
        ⟨⟨[⟨text, r0.bold, r0.italic, r0.fontName,
            if truthySize r0.fontSize = true then r0.fontSize else none⟩]⟩ :: rest⟩) ∧
    (∀ p rest, cell.paragraphs = p :: rest → p.runs = [] →
      set_cell_text_preserving_style cell text = ⟨⟨[add_run_default text]⟩ :: rest⟩) ∧
    (cell.paragraphs = [] →
      set_cell_text_preserving_style cell text = ⟨[⟨[add_run_default text]⟩]⟩) := by
  obtain ⟨ps⟩ := cell
  refine ⟨?_, ?_, ?_⟩
  · intro p rest r0 rs hp hr
    simp only at hp
    subst hp
    simp [set_cell_text_preserving_style, hr, add_run_default]
  · intro p rest hp hr
    simp only at hp
    subst hp
    simp [set_cell_text_preserving_style, hr]
  · intro hp
    simp only at hp
    subst hp
    rfl

def cellC8 : WCell := ⟨[⟨[⟨"旧", some true, none, some "宋体", some 12⟩]⟩]⟩

/-- C8 witness: a bold size-12 first run yields a bold size-12 new run; a
cell with no paragraphs gets a new default paragraph. -/
theorem style_preservation_witness :
    set_cell_text_preserving_style cellC8 "新" =
      ⟨[⟨[⟨"新", some true, none, some "宋体", some 12⟩]⟩]⟩ ∧
    set_cell_text_preserving_style ⟨[]⟩ "新" = ⟨[⟨[add_run_default "新"]⟩]⟩ := by
  constructor
  · have h := (style_preservation cellC8 "新").1
      ⟨[⟨"旧", some true, none, some "宋体", some 12⟩]⟩ []
      ⟨"旧", some true, none, some "宋体", some 12⟩ [] rfl rfl
    simpa using h
  · exact (style_preservation ⟨[]⟩ "新").2.2 rfl

/-! ## C7 and C10: the fill loop of main -/

lemma fillFold_snd (mapping : Dict) : ∀ (items : List Binding) (doc : WDoc) (n : Nat),
    (items.foldl (fillStep mapping) (doc, n)).2 =
      n + items.countP (fun it => truthyStr (lookupContent mapping it)) := by
  intro items
  induction items with
  | nil => intro doc n; simp
  | cons x xs ih =>
    intro doc n
    simp only [List.foldl_cons, List.countP_cons]
    by_cases h : truthyStr (lookupContent mapping x) = true
    · rw [show fillStep mapping (doc, n) x =
        (WDoc.modifyCell doc x.target_coords.1 x.target_coords.2.1 x.target_coords.2.2
          (fun cell => set_cell_text_preserving_style cell ((lookupContent mapping x).getD "")),
         n + 1) from by unfold fillStep; rw [if_pos h]]
      rw [ih]
      simp [h]
      omega
    · rw [show fillStep mapping (doc, n) x = (doc, n) from by unfold fillStep; rw [if_neg h]]
      rw [ih]
      simp [h]

lemma fillStructure_snd (mapping : Dict) (doc : WDoc) (items : List Binding) :
    (fillStructure mapping doc items).2 =
      items.countP (fun it => truthyStr (lookupContent mapping it)) := by
  unfold fillStructure
  rw [fillFold_snd]
  omega

/-- C7: during writing, content is looked up by the Binding's key first and
by its original label when the key has no entry; a Binding whose lookup
finds no content leaves the accumulated document and count untouched; and
the reported fill count equals exactly the number of Bindings written
(those whose lookup is truthy, each of which performs one cell write). -/
theorem writer_lookup_fallback_and_count (mapping : Dict) (doc : WDoc)
    (items : List Binding) (item : Binding) (acc : WDoc × Nat) :
    (Dict.get mapping item.key_text = none →
      lookupContent mapping item = Dict.get mapping item.original_text) ∧
    (truthyStr (lookupContent mapping item) = false → fillStep mapping acc item = acc) ∧
    (fillStructure mapping doc items).2 =
      items.countP (fun it => truthyStr (lookupContent mapping it)) := by
  refine ⟨?_, ?_, fillStructure_snd mapping doc items⟩
  · intro h
    unfold lookupContent
    rw [h]
    rfl
  · intro h
    unfold fillStep
    rw [h]
    simp

def itemC7 : Binding := ⟨"学情分析 > 知识基础", "知识基础", (0, 0, 1), false⟩

/-- C7 witness: with a map holding only the original label, the qualified
key misses and the fallback is used; the fill count over one binding is 1. -/
theorem writer_lookup_fallback_and_count_witness :
    lookupContent [("知识基础", "内容")] itemC7 = Dict.get [("知识基础", "内容")] "知识基础" ∧
    (fillStructure [("知识基础", "内容")] ⟨[]⟩ [itemC7]).2 = 1 := by
  constructor
  · exact (writer_lookup_fallback_and_count [("知识基础", "内容")] ⟨[]⟩ [itemC7] itemC7
      (⟨[]⟩, 0)).1 (by decide)
  · rw [(writer_lookup_fallback_and_count [("知识基础", "内容")] ⟨[]⟩ [itemC7] itemC7
      (⟨[]⟩, 0)).2.2]
    decide

/-- C10 (implicit): a generated value that is the empty string is treated as
missing — the `or` lookup falls back to the original label even when the
qualified key is present but maps to `""`; and when both lookups are falsy
the cell is not written and the Binding is not counted. -/
theorem empty_string_treated_as_missing (mapping : Dict) (item : Binding) (acc : WDoc × Nat) :
    (Dict.get mapping item.key_text = some "" →
      lookupContent mapping item = Dict.get mapping item.original_text) ∧
    (truthyStr (Dict.get mapping item.key_text) = false →
     truthyStr (Dict.get mapping item.original_text) = false →
      fillStep mapping acc item = acc) := by
  constructor
  · intro h
    unfold lookupContent
    rw [h]
    rfl
  · intro hk ho
    unfold fillStep lookupContent
    rw [hk]
    simp only [Bool.false_eq_true, if_false]
    rw [ho]
    simp

def itemC10 : Binding := ⟨"课中 > 教师活动_行3", "教师活动", (0, 3, 1), true⟩

/-- C10 witness: a key present with an empty value falls back to the
original label; when both are falsy the step is the identity. -/
theorem empty_string_treated_as_missing_witness :
    lookupContent [("课中 > 教师活动_行3", "")] itemC10 =
      Dict.get [("课中 > 教师活动_行3", "")] "教师活动" ∧
    fillStep [("课中 > 教师活动_行3", "")] (⟨[]⟩, 0) itemC10 = (⟨[]⟩, 0) := by
  constructor
  · exact (empty_string_treated_as_missing [("课中 > 教师活动_行3", "")] itemC10
      (⟨[]⟩, 0)).1 (by decide)
  · exact (empty_string_treated_as_missing [("课中 > 教师活动_行3", "")] itemC10
      (⟨[]⟩, 0)).2 (by decide) (by decide)

/-! ## C2: matrix-table phase switching -/

/-- C2: in the matrix strategy, a row whose cells all strip to one
phase-marker token switches the current phase to that token and emits no
Bindings from the row; when the token equals the already-current phase the
row is ignored entirely, so a repeated header does not reset the phase.
In both cases the scan state (and hence the emitted structure) is
unchanged by the row. -/
theorem matrix_phase_row_switch (t_idx : Nat) (table : Table) (col_map : List (Nat × String))
    (ms : MatrixState) (r : Nat) (tok : String)
    (hne : table.rows.getD r [] ≠ [])
    (hall : ∀ c ∈ table.rows.getD r [], pyStrip c.text = tok)
    (htok : tok ∈ PHASE_TOKENS) :
    processMatrixRow t_idx table col_map ms r =
      (if tok = ms.current_phase then ms
       else { ms with current_phase := tok, seen_phases := ms.seen_phases ++ [tok] }) ∧
    (processMatrixRow t_idx table col_map ms r).scan = ms.scan := by
  have hrt : rowRawText (table.rows.getD r []) = tok :=
    rowRawText_const _ _ hne hall
  have h1 : processMatrixRow t_idx table col_map ms r =
      (if tok = ms.current_phase then ms
       else { ms with current_phase := tok, seen_phases := ms.seen_phases ++ [tok] }) := by
    unfold processMatrixRow
    rw [hrt, if_pos htok]
  refine ⟨h1, ?_⟩
  rw [h1]
  split <;> rfl

def tableC2 : Table := ⟨2, [[⟨1, "课中"⟩, ⟨2, " 课中 "⟩]]⟩

def msC2 : MatrixState := ⟨"教学过程", [], ⟨[], [], []⟩⟩

/-- C2 witness: a concrete all-"课中" row switches the phase from the
default and leaves the scan state unchanged. -/
theorem matrix_phase_row_switch_witness :
    processMatrixRow 0 tableC2 [] msC2 0 =
      (if "课中" = msC2.current_phase then msC2
       else { msC2 with current_phase := "课中", seen_phases := msC2.seen_phases ++ ["课中"] }) ∧
    (processMatrixRow 0 tableC2 [] msC2 0).scan = msC2.scan :=
  matrix_phase_row_switch 0 tableC2 [] msC2 0 "课中" (by decide) (by decide) (by decide)

/-! ## C3: generic-table adjacency -/

lemma genericTarget_right {table : Table} {r c : Nat} (hc : c + 1 < table.nCols)
    (hb : pyStrip (table.cell r (c + 1)).text = "") :
    genericTarget table r c = some (r, c + 1, (table.cell r (c + 1)).id) := by
  unfold genericTarget
  rw [if_pos ⟨hc, hb⟩]

lemma genericTarget_none {table : Table} {r c : Nat}
    (h1 : c + 1 < table.nCols → pyStrip (table.cell r (c + 1)).text ≠ "")
    (h2 : r + 1 < table.rows.length → pyStrip (table.cell (r + 1) c).text ≠ "") :
    genericTarget table r c = none := by
  unfold genericTarget
  rw [if_neg (fun h => h1 h.1 h.2), if_neg (fun h => h2 h.1 h.2)]

/-- C3 amended: for a candidate label cell, the generic strategy emits at
most one Binding; a label whose right and below neighbours are both
non-blank (or absent) emits none; and whenever the right neighbour is
blank it is the only candidate target — if it is already claimed the
label emits nothing (the strategy does not fall through to the below
cell), and any Binding emitted targets exactly the right neighbour. -/
lemma processGenericCell_eq_skipA (t_idx : Nat) (table : Table) (r c : Nat) (st : ScanState)
    (hA : labelText table r c = "" ∨ is_instructional (labelText table r c) = true) :
    processGenericCell t_idx table r c st = st := by
  unfold processGenericCell
  rw [if_pos hA]

lemma processGenericCell_eq_skipB (t_idx : Nat) (table : Table) (r c : Nat) (st : ScanState)
    (hA : ¬(labelText table r c = "" ∨ is_instructional (labelText table r c) = true))
    (hB : labelText table r c ∈ st.processed_keys ∧ (labelText table r c).length < 10) :
    processGenericCell t_idx table r c st = st := by
  unfold processGenericCell
  rw [if_neg hA, if_pos hB]

lemma processGenericCell_eq_none (t_idx : Nat) (table : Table) (r c : Nat) (st : ScanState)
    (hgt : genericTarget table r c = none) :
    processGenericCell t_idx table r c st = st := by
  unfold processGenericCell
  split
  · rfl
  · split
    · rfl
    · rw [hgt]

lemma processGenericCell_eq_some (t_idx : Nat) (table : Table) (r c : Nat) (st : ScanState)
    (tr tc t_id : Nat)
    (hgt : genericTarget table r c = some (tr, tc, t_id))
    (hA : ¬(labelText table r c = "" ∨ is_instructional (labelText table r c) = true))
    (hB : ¬(labelText table r c ∈ st.processed_keys ∧ (labelText table r c).length < 10)) :
    processGenericCell t_idx table r c st =
      if t_id ∉ st.processed_cell_ids then
        { st with
          struct := st.struct ++ [genericBinding t_idx table r c tr tc],
          processed_cell_ids := t_id :: st.processed_cell_ids,
          processed_keys := labelText table r c :: st.processed_keys }
      else st := by
  unfold processGenericCell
  rw [if_neg hA, if_neg hB, hgt]

theorem generic_adjacency_amended (t_idx : Nat) (table : Table) (r c : Nat) (st : ScanState) :
    (∃ tail, (processGenericCell t_idx table r c st).struct = st.struct ++ tail ∧
       tail.length ≤ 1) ∧
    ((c + 1 < table.nCols → pyStrip (table.cell r (c + 1)).text ≠ "") →
     (r + 1 < table.rows.length → pyStrip (table.cell (r + 1) c).text ≠ "") →
      processGenericCell t_idx table r c st = st) ∧
    (c + 1 < table.nCols → pyStrip (table.cell r (c + 1)).text = "" →
      ((table.cell r (c + 1)).id ∈ st.processed_cell_ids →
        processGenericCell t_idx table r c st = st) ∧
      (∀ b ∈ (processGenericCell t_idx table r c st).struct, b ∉ st.struct →
        b.target_coords = (t_idx, r, c + 1))) := by
  refine ⟨?_, ?_, ?_⟩
  · by_cases hA : labelText table r c = "" ∨ is_instructional (labelText table r c) = true
    · rw [processGenericCell_eq_skipA t_idx table r c st hA]
      exact ⟨[], by simp, by simp⟩
    by_cases hB : labelText table r c ∈ st.processed_keys ∧ (labelText table r c).length < 10
    · rw [processGenericCell_eq_skipB t_idx table r c st hA hB]
      exact ⟨[], by simp, by simp⟩
    cases hgt : genericTarget table r c with
    | none =>
      rw [processGenericCell_eq_none t_idx table r c st hgt]
      exact ⟨[], by simp, by simp⟩
    | some t =>
      obtain ⟨tr, tc, t_id⟩ := t
      rw [processGenericCell_eq_some t_idx table r c st tr tc t_id hgt hA hB]
      by_cases hid : t_id ∉ st.processed_cell_ids
      · rw [if_pos hid]
        exact ⟨[genericBinding t_idx table r c tr tc], rfl, by simp⟩
      · rw [if_neg hid]
        exact ⟨[], by simp, by simp⟩
  · intro h1 h2
    exact processGenericCell_eq_none t_idx table r c st (genericTarget_none h1 h2)
  · intro hc hb
    have hright := genericTarget_right hc hb
    constructor
    · intro hmem
      by_cases hA : labelText table r c = "" ∨ is_instructional (labelText table r c) = true
      · exact processGenericCell_eq_skipA t_idx table r c st hA
      by_cases hB : labelText table r c ∈ st.processed_keys ∧ (labelText table r c).length < 10
      · exact processGenericCell_eq_skipB t_idx table r c st hA hB
      rw [processGenericCell_eq_some t_idx table r c st r (c + 1) ((table.cell r (c + 1)).id)
        hright hA hB]
      rw [if_neg (not_not_intro hmem)]
    · intro b hbmem hbnew
      by_cases hA : labelText table r c = "" ∨ is_instructional (labelText table r c) = true
      · rw [processGenericCell_eq_skipA t_idx table r c st hA] at hbmem
        exact absurd hbmem hbnew
      by_cases hB : labelText table r c ∈ st.processed_keys ∧ (labelText table r c).length < 10
      · rw [processGenericCell_eq_skipB t_idx table r c st hA hB] at hbmem
        exact absurd hbmem hbnew
      rw [processGenericCell_eq_some t_idx table r c st r (c + 1) ((table.cell r (c + 1)).id)
        hright hA hB] at hbmem
      by_cases hid : (table.cell r (c + 1)).id ∉ st.processed_cell_ids
      · rw [if_pos hid] at hbmem
        rcases List.mem_append.mp hbmem with hold | hnew
        · exact absurd hold hbnew
        · rw [List.mem_singleton.mp hnew]
          rfl
      · rw [if_neg hid] at hbmem
        exact absurd hbmem hbnew

def tableC3 : Table := ⟨2, [[⟨1, ""⟩, ⟨2, "X"⟩], [⟨3, "Y"⟩, ⟨4, ""⟩], [⟨5, ""⟩, ⟨6, ""⟩]]⟩

def docC3 : Doc := ⟨[tableC3]⟩

/-- C3 counterexample: label "Y" at (1,0) has a blank right neighbour
(1,1) that is already claimed by "X"'s below-binding, and a blank
unclaimed below neighbour (2,0); the claim would bind "Y" to (2,0), but
the code emits no Binding for "Y" at all — the inferred structure holds
only the "X" binding. -/
theorem generic_adjacency_cex :
    pyStrip (tableC3.cell 1 1).text = "" ∧
    pyStrip (tableC3.cell 2 0).text = "" ∧
    get_table_structure docC3 = [⟨"X", "X", (0, 1, 1), false⟩] ∧
    ∀ b ∈ get_table_structure docC3, b.original_text ≠ "Y" := by decide

/-- C3 witness: in the counterexample grid, processing the "Y" cell with
the right neighbour's id already claimed leaves the scan state unchanged. -/
theorem generic_adjacency_amended_witness :
    processGenericCell 0 tableC3 1 0 ⟨[⟨"X", "X", (0, 1, 1), false⟩], [4], ["X"]⟩ =
      ⟨[⟨"X", "X", (0, 1, 1), false⟩], [4], ["X"]⟩ :=
  ((generic_adjacency_amended 0 tableC3 1 0
    ⟨[⟨"X", "X", (0, 1, 1), false⟩], [4], ["X"]⟩).2.2 (by decide) (by decide)).1 (by decide)

/-! ## C4: deterministic overrides -/

lemma Dict.get_set_self (m : Dict) (k v : String) : Dict.get (Dict.set m k v) k = some v := by
  simp [Dict.get, Dict.set, List.find?]

lemma Dict.get_set_ne (m : Dict) (k v k₂ : String) (h : k ≠ k₂) :
    Dict.get (Dict.set m k v) k₂ = Dict.get m k₂ := by
  have hb : (k == k₂) = false := beq_eq_false_iff_ne.mpr h
  simp [Dict.get, Dict.set, List.find?, hb]

lemma overrideStep_get_ne (m : Dict) (p : String × Option String) (k : String) (h : p.1 ≠ k) :
    Dict.get (overrideStep m p) k = Dict.get m k := by
  obtain ⟨name, o⟩ := p
  cases o with
  | none => rfl
  | some v =>
    unfold overrideStep
    dsimp only
    split
    · exact Dict.get_set_ne m name v k h
    · rfl

lemma overrideStep_get_self (m : Dict) (k v : String) (hv : v ≠ "") :
    Dict.get (overrideStep m (k, some v)) k = some v := by
  unfold overrideStep
  dsimp only
  rw [if_pos hv]
  exact Dict.get_set_self m k v

lemma foldl_overrideStep_get_stable :
    ∀ (ps : List (String × Option String)) (m : Dict) (k v : String), v ≠ "" →
      Dict.get m k = some v → (∀ p ∈ ps, p.1 = k → p.2 = some v) →
      Dict.get (ps.foldl overrideStep m) k = some v := by
  intro ps
  induction ps with
  | nil => intro m k v _ hm _; exact hm
  | cons q qs ih =>
    intro m k v hv hm h
    simp only [List.foldl_cons]
    refine ih (overrideStep m q) k v hv ?_ (fun p hp => h p (List.mem_cons_of_mem q hp))
    by_cases hq : q.1 = k
    · have h2 : q.2 = some v := h q (List.mem_cons_self q qs) hq
      have : overrideStep m q = overrideStep m (k, some v) := by rw [← hq, ← h2]
      rw [this]
      exact overrideStep_get_self m k v hv
    · rw [overrideStep_get_ne m q k hq]
      exact hm

lemma foldl_overrideStep_get_of_mem :
    ∀ (ps : List (String × Option String)) (m : Dict) (k v : String), v ≠ "" →
      (k, some v) ∈ ps → (∀ p ∈ ps, p.1 = k → p.2 = some v) →
      Dict.get (ps.foldl overrideStep m) k = some v := by
  intro ps
  induction ps with
  | nil => intro m k v _ hmem _; exact absurd hmem (List.not_mem_nil _)
  | cons q qs ih =>
    intro m k v hv hmem h
    simp only [List.foldl_cons]
    rcases List.mem_cons.mp hmem with heq | htail
    · refine foldl_overrideStep_get_stable qs (overrideStep m q) k v hv ?_
        (fun p hp => h p (List.mem_cons_of_mem q hp))
      rw [← heq]
      exact overrideStep_get_self m k v hv
    · exact ih (overrideStep m q) k v hv htail (fun p hp => h p (List.mem_cons_of_mem q hp))

/-- C4 amended: the deterministic overrides cover the schedule time,
location, class and instructor-name fields (each applied to its fixed
qualified key variants) and always win: whenever the UserContext holds a
non-empty value for the source field of one of the seven override pairs,
the final ContentMap's value at that override key equals the UserContext
value, whatever the backend returned.  The serial-number field itself has
no override (it appears only inside qualified variant names). -/
theorem overrides_always_win (oracle : Oracle) (ui : Dict) (doc_keys : List Binding)
    (name src v : String)
    (hpair : (name, src) ∈ OVERRIDE_SOURCES)
    (hv : Dict.get ui src = some v) (hne : v ≠ "") :
    Dict.get (generate_deep_content_chunked oracle ui doc_keys) name = some v := by
  have key : ∀ m : Dict, Dict.get (applyOverrides ui m) name = some v := by
    intro m
    simp only [OVERRIDE_SOURCES, List.mem_cons, List.not_mem_nil, or_false] at hpair
    unfold applyOverrides
    rcases hpair with h | h | h | h | h | h | h <;>
      (rw [Prod.mk.injEq] at h
       obtain ⟨rfl, rfl⟩ := h
       refine foldl_overrideStep_get_of_mem (manual_overrides ui) m _ v hne ?_ ?_
       · simp [manual_overrides, hv]
       · intro p hp h1
         simp only [manual_overrides, List.mem_cons, List.not_mem_nil, or_false] at hp
         rcases hp with rfl | rfl | rfl | rfl | rfl | rfl | rfl <;>
           dsimp only at h1 ⊢ <;>
           first
             | exact hv
             | exact absurd h1 (by decide))
  exact key _

def oracleC4 : Oracle := fun ks _ => some (ks.map (fun k => (k, "No. 99")))

def uiC4 : Dict := [("教案序号", "No. 01")]

def keysC4 : List Binding := [⟨"教案序号", "教案序号", (0, 0, 1), false⟩]

/-- C4 counterexample: the serial-number field (教案序号) is among the
claim's identity fields and present in the UserContext, yet no override
exists for it — the backend's value survives into the final ContentMap. -/
theorem serial_number_not_overridden_cex :
    Dict.get uiC4 "教案序号" = some "No. 01" ∧
    Dict.get (generate_deep_content_chunked oracleC4 uiC4 keysC4) "教案序号" =
      some "No. 99" := by decide

def uiC4w : Dict := [("时间", "2024-03-20")]

/-- C4 witness: the schedule-time override wins against a backend that
returns a different value for every requested key. -/
theorem overrides_always_win_witness :
    Dict.get (generate_deep_content_chunked oracleC4 uiC4w
      [⟨"授课时间", "授课时间", (0, 0, 1), false⟩]) "授课时间" = some "2024-03-20" :=
  overrides_always_win oracleC4 uiC4w [⟨"授课时间", "授课时间", (0, 0, 1), false⟩]
    "授课时间" "时间" "2024-03-20" (by decide) rfl (by decide)

/-! ## C6: all batches failed -/

lemma attemptLoop_none (oracle : Oracle) (ks : List String) :
    ∀ (fuel rc : Nat),
      (∀ j, rc ≤ j → j < rc + fuel → parseOutcome (oracle ks j) = none) →
      attemptLoop oracle ks rc fuel = none := by
  intro fuel
  induction fuel with
  | zero => intro rc _; rfl
  | succ n ih =>
    intro rc h
    unfold attemptLoop
    rw [h rc (Nat.le_refl rc) (by omega)]
    exact ih (rc + 1) (fun j h1 h2 => h j (by omega) (by omega))

lemma attemptBatch_none (oracle : Oracle) (ks : List String)
    (h : ∀ j, j < RETRY_LIMIT → parseOutcome (oracle ks j) = none) :
    attemptBatch oracle ks = none :=
  attemptLoop_none oracle ks RETRY_LIMIT 0 (fun j _ h2 => h j (by omega))

lemma batchFold_all_none (oracle : Oracle) (all_keys : List String) (n : Nat)
    (h : ∀ ks, attemptBatch oracle ks = none) :
    batchFold oracle all_keys n = [] := by
  unfold batchFold
  have step : ∀ (l : List Nat) (m : Dict), m = [] →
      (l.foldl (fun m i =>
        match attemptBatch oracle (batchKeys all_keys i) with
        | some batch_result => Dict.update m batch_result
        | none => m) m) = [] := by
    intro l
    induction l with
    | nil => intro m hm; exact hm
    | cons x xs ih =>
      intro m hm
      simp only [List.foldl_cons]
      rw [h (batchKeys all_keys x)]
      exact ih m hm
  exact step (List.range n) [] rfl

/-- C6 amended: when every batch fails all its attempts, the resulting
ContentMap consists exactly of the deterministic overrides applied to the
empty map — so it is empty only when no override source field holds a
truthy value, and in that empty case `main`'s truthiness gate skips the
write phase entirely (the document is unmutated and the fill count is 0);
there is no distinct run-level failure report, and when overrides are
present the run proceeds with them. -/
theorem all_batches_failed_overrides_only (oracle : Oracle) (ui : Dict)
    (doc_keys : List Binding)
    (hfail : ∀ ks j, j < RETRY_LIMIT → parseOutcome (oracle ks j) = none) :
    generate_deep_content_chunked oracle ui doc_keys = applyOverrides ui [] ∧
    (applyOverrides ui [] = [] → ∀ (doc : WDoc) (items : List Binding),
      mainFill (generate_deep_content_chunked oracle ui doc_keys) doc items = (doc, 0)) := by
  have h1 : generate_deep_content_chunked oracle ui doc_keys = applyOverrides ui [] := by
    unfold generate_deep_content_chunked
    rw [batchFold_all_none oracle _ _ (fun ks => attemptBatch_none oracle ks (hfail ks))]
  refine ⟨h1, ?_⟩
  intro hemp doc items
  rw [h1, hemp]
  rfl

def oracleFail : Oracle := fun _ _ => none

def uiC6 : Dict := [("教师姓名", "张三")]

def keysC6 : List Binding := [⟨"教学目标", "教学目标", (0, 0, 1), false⟩]

/-- C6 counterexample: with every batch failing and an instructor name in
the UserContext, the resulting ContentMap is NOT empty — it carries the
override entry — so the all-failed condition is not reported as an empty
map, and `main` proceeds to write it. -/
theorem all_failed_map_not_empty_cex :
    generate_deep_content_chunked oracleFail uiC6 keysC6 = [("教师姓名", "张三")] ∧
    generate_deep_content_chunked oracleFail uiC6 keysC6 ≠ [] := by decide

/-- C6 witness: with an empty UserContext the all-failed map is the
overrides of the empty map, and the write phase is skipped. -/
theorem all_batches_failed_overrides_only_witness :
    generate_deep_content_chunked oracleFail [] keysC6 = applyOverrides [] [] ∧
    (applyOverrides [] [] = [] → ∀ (doc : WDoc) (items : List Binding),
      mainFill (generate_deep_content_chunked oracleFail [] keysC6) doc items = (doc, 0)) :=
  all_batches_failed_overrides_only oracleFail [] keysC6 (fun _ _ _ => rfl)

/-! ## C1: uniqueness of binding targets

The invariant: targets already emitted are pairwise distinct, belong to
tables at index at most the current one, and — for the current table —
their cell ids are recorded in `processed_cell_ids`.  Since a binding at
coordinate (t, r, c) always records the id of the very cell at (r, c) of
the current table, a second binding at the same coordinate is blocked by
the id check, with no assumption on the id assignment. -/

def DistinctTargets (l : List Binding) : Prop :=
  l.Pairwise (fun b1 b2 => b1.target_coords ≠ b2.target_coords)

def TableInv (t_idx : Nat) (table : Table) (st : ScanState) : Prop :=
  DistinctTargets st.struct ∧
  (∀ b ∈ st.struct, b.target_coords.1 ≤ t_idx) ∧
  (∀ b ∈ st.struct, b.target_coords.1 = t_idx →
    (table.cell b.target_coords.2.1 b.target_coords.2.2).id ∈ st.processed_cell_ids)

lemma scan_append_inv {t_idx : Nat} {table : Table} {st : ScanState}
    (key orig : String) (flag : Bool) (r c : Nat) (keys2 : List String)
    (h : TableInv t_idx table st)
    (hid : (table.cell r c).id ∉ st.processed_cell_ids) :
    TableInv t_idx table
      ⟨st.struct ++ [⟨key, orig, (t_idx, r, c), flag⟩],
       (table.cell r c).id :: st.processed_cell_ids, keys2⟩ := by
  obtain ⟨hpair, hle, hmem⟩ := h
  refine ⟨?_, ?_, ?_⟩
  · rw [DistinctTargets, List.pairwise_append]
    refine ⟨hpair, List.pairwise_singleton _ _, ?_⟩
    intro b hb b2 hb2
    rw [List.mem_singleton.mp hb2]
    intro heq
    have hmem2 := hmem b hb (by rw [heq])
    rw [heq] at hmem2
    exact hid hmem2
  · intro b hb
    rcases List.mem_append.mp hb with h1 | h1
    · exact hle b h1
    · rw [List.mem_singleton.mp h1]
  · intro b hb hbt
    rcases List.mem_append.mp hb with h1 | h1
    · exact List.mem_cons_of_mem _ (hmem b h1 hbt)
    · rw [List.mem_singleton.mp h1]
      exact List.mem_cons_self _ _

lemma matrixColStep_inv {t_idx : Nat} {table : Table} {r : Nat} {phase : String}
    {st : ScanState} (p : Nat × String) (h : TableInv t_idx table st) :
    TableInv t_idx table (matrixColStep t_idx table r phase st p) := by
  unfold matrixColStep
  split
  · split
    · exact scan_append_inv _ _ _ r p.1 st.processed_keys h (by assumption)
    · exact h
  · exact h

lemma processMatrixRow_inv {t_idx : Nat} {table : Table} {col_map : List (Nat × String)}
    {ms : MatrixState} (r : Nat) (h : TableInv t_idx table ms.scan) :
    TableInv t_idx table (processMatrixRow t_idx table col_map ms r).scan := by
  unfold processMatrixRow
  split
  · split
    · exact h
    · exact h
  · exact foldl_preserve _ col_map ms.scan (fun st p hp => matrixColStep_inv p hp) h

lemma genericTarget_id {table : Table} {r c tr tc t_id : Nat}
    (h : genericTarget table r c = some (tr, tc, t_id)) :
    t_id = (table.cell tr tc).id := by
  unfold genericTarget at h
  split at h
  · simp only [Option.some.injEq, Prod.mk.injEq] at h
    obtain ⟨h1, h2, h3⟩ := h
    subst h1
    subst h2
    subst h3
    rfl
  · split at h
    · simp only [Option.some.injEq, Prod.mk.injEq] at h
      obtain ⟨h1, h2, h3⟩ := h
      subst h1
      subst h2
      subst h3
      rfl
    · exact absurd h (by simp)

lemma processGenericCell_inv {t_idx : Nat} {table : Table} (r c : Nat) {st : ScanState}
    (h : TableInv t_idx table st) :
    TableInv t_idx table (processGenericCell t_idx table r c st) := by
  by_cases hA : labelText table r c = "" ∨ is_instructional (labelText table r c) = true
  · rw [processGenericCell_eq_skipA t_idx table r c st hA]
    exact h
  by_cases hB : labelText table r c ∈ st.processed_keys ∧ (labelText table r c).length < 10
  · rw [processGenericCell_eq_skipB t_idx table r c st hA hB]
    exact h
  cases hgt : genericTarget table r c with
  | none =>
    rw [processGenericCell_eq_none t_idx table r c st hgt]
    exact h
  | some t =>
    obtain ⟨tr, tc, t_id⟩ := t
    have hid_eq : t_id = (table.cell tr tc).id := genericTarget_id hgt
    subst hid_eq
    rw [processGenericCell_eq_some t_idx table r c st tr tc _ hgt hA hB]
    by_cases hid : (table.cell tr tc).id ∉ st.processed_cell_ids
    · rw [if_pos hid]
      exact scan_append_inv _ _ _ tr tc _ h hid
    · rw [if_neg hid]
      exact h

lemma tableInv_shift {t_idx : Nat} {table : Table} {st : ScanState}
    (h : TableInv t_idx table st) (table2 : Table) :
    TableInv (t_idx + 1) table2 st := by
  obtain ⟨h1, h2, h3⟩ := h
  refine ⟨h1, fun b hb => Nat.le_succ_of_le (h2 b hb), fun b hb heq => ?_⟩
  exact absurd heq (by have := h2 b hb; omega)

lemma processTable_inv {t_idx : Nat} {table : Table} {st : ScanState}
    (h : TableInv t_idx table st) :
    TableInv t_idx table (processTable t_idx table st) := by
  unfold processTable
  split
  · exact @foldl_preserve MatrixState Nat (fun ms => TableInv t_idx table ms.scan)
      (fun ms r => processMatrixRow t_idx table (buildColMap table) ms r)
      (List.range table.rows.length) ⟨"教学过程", [], st⟩
      (fun ms r hm => processMatrixRow_inv r hm) h
  · exact @foldl_preserve ScanState Nat (TableInv t_idx table) _
      (List.range table.rows.length) st
      (fun st1 r h1 => @foldl_preserve ScanState Nat (TableInv t_idx table) _
        (List.range table.nCols) st1
        (fun st2 c h2 => processGenericCell_inv r c h2) h1) h

lemma processTables_distinct : ∀ (ts : List Table) (t_idx : Nat) (st : ScanState),
    (∀ tbl, TableInv t_idx tbl st) →
    DistinctTargets (processTables ts t_idx st).struct := by
  intro ts
  induction ts with
  | nil => intro t_idx st h; exact (h ⟨0, []⟩).1
  | cons t ts ih =>
    intro t_idx st h
    exact ih (t_idx + 1) (processTable t_idx t st)
      (fun tbl2 => tableInv_shift (processTable_inv (h t)) tbl2)

/-- C1: in the Structure produced by structure inference, no two Bindings
share a target coordinate — target uniqueness holds across the matrix and
generic strategies and across tables, enforced by the claimed-cell id set. -/
theorem binding_targets_unique (doc : Doc) :
    (get_table_structure doc).Pairwise
      (fun b1 b2 => b1.target_coords ≠ b2.target_coords) := by
  have h : ∀ tbl, TableInv 0 tbl ⟨[], [], []⟩ := by
    intro tbl
    exact ⟨List.Pairwise.nil,
      fun b hb => absurd hb (List.not_mem_nil b),
      fun b hb => absurd hb (List.not_mem_nil b)⟩
  exact processTables_distinct doc.tables 0 ⟨[], [], []⟩ h

/-! ## C5: per-batch failure isolation -/

lemma Dict.get_set_isSome (m : Dict) (k2 v k : String)
    (h : (Dict.get m k).isSome = true) :
    (Dict.get (Dict.set m k2 v) k).isSome = true := by
  by_cases he : k2 = k
  · subst he
    rw [Dict.get_set_self]
    rfl
  · rw [Dict.get_set_ne m k2 v k he]
    exact h

lemma Dict.get_update_isSome_mono : ∀ (e : List (String × String)) (m : Dict) (k : String),
    (Dict.get m k).isSome = true → (Dict.get (Dict.update m e) k).isSome = true := by
  intro e
  induction e with
  | nil => intro m k h; exact h
  | cons p ps ih =>
    intro m k h
    exact ih (Dict.set m p.1 p.2) k (Dict.get_set_isSome m p.1 p.2 k h)

lemma Dict.get_update_isSome_of_mem : ∀ (e : List (String × String)) (m : Dict) (k : String),
    k ∈ e.map Prod.fst → (Dict.get (Dict.update m e) k).isSome = true := by
  intro e
  induction e with
  | nil => intro m k h; exact absurd h (List.not_mem_nil k)
  | cons p ps ih =>
    intro m k h
    simp only [List.map_cons, List.mem_cons] at h
    rcases h with h | h
    · subst h
      exact Dict.get_update_isSome_mono ps _ _ (by rw [Dict.get_set_self]; rfl)
    · exact ih _ _ h

lemma Dict.get_update_not_mem : ∀ (e : List (String × String)) (m : Dict) (k : String),
    k ∉ e.map Prod.fst → Dict.get (Dict.update m e) k = Dict.get m k := by
  intro e
  induction e with
  | nil => intro m k _; rfl
  | cons p ps ih =>
    intro m k h
    simp only [List.map_cons, List.mem_cons, not_or] at h
    have h2 : Dict.get (Dict.update (Dict.set m p.1 p.2) ps) k =
        Dict.get (Dict.set m p.1 p.2) k := ih _ k h.2
    have h3 : Dict.get (Dict.set m p.1 p.2) k = Dict.get m k :=
      Dict.get_set_ne m p.1 p.2 k (fun he => h.1 (he ▸ rfl))
    exact h2.trans h3

lemma batchFold_succ (oracle : Oracle) (ks : List String) (n : Nat) :
    batchFold oracle ks (n + 1) =
      match attemptBatch oracle (batchKeys ks n) with
      | some batch_result => Dict.update (batchFold oracle ks n) batch_result
      | none => batchFold oracle ks n := by
  unfold batchFold
  rw [List.range_succ n, List.foldl_append]
  rfl

lemma get_batchFold_isSome (oracle : Oracle) (ks : List String) :
    ∀ (n i : Nat) (l : List (String × String)) (k : String), i < n →
      attemptBatch oracle (batchKeys ks i) = some l → k ∈ l.map Prod.fst →
      (Dict.get (batchFold oracle ks n) k).isSome = true := by
  intro n
  induction n with
  | zero => intro i l k h; exact absurd h (Nat.not_lt_zero i)
  | succ m ih =>
    intro i l k hi hat hk
    rw [batchFold_succ]
    by_cases he : i = m
    · subst he
      rw [hat]
      exact Dict.get_update_isSome_of_mem l _ k hk
    · have him : i < m := by omega
      cases hat2 : attemptBatch oracle (batchKeys ks m) with
      | none => exact ih i l k him hat hk
      | some l2 => exact Dict.get_update_isSome_mono l2 _ k (ih i l k him hat hk)

lemma get_batchFold_mem_batches (oracle : Oracle) (ks : List String) :
    ∀ (n : Nat) (k : String), (Dict.get (batchFold oracle ks n) k).isSome = true →
      ∃ i, i < n ∧ ∃ l, attemptBatch oracle (batchKeys ks i) = some l ∧
        k ∈ l.map Prod.fst := by
  intro n
  induction n with
  | zero =>
    intro k h
    rw [show batchFold oracle ks 0 = [] from rfl] at h
    simp [Dict.get, List.find?] at h
  | succ m ih =>
    intro k h
    rw [batchFold_succ] at h
    cases hat : attemptBatch oracle (batchKeys ks m) with
    | none =>
      rw [hat] at h
      obtain ⟨i, hi, hl⟩ := ih k h
      exact ⟨i, by omega, hl⟩
    | some l =>
      rw [hat] at h
      by_cases hk : k ∈ l.map Prod.fst
      · exact ⟨m, Nat.lt_succ_self m, l, hat, hk⟩
      · rw [Dict.get_update_not_mem l _ k hk] at h
        obtain ⟨i, hi, hl⟩ := ih k h
        exact ⟨i, by omega, hl⟩

lemma foldl_overrideStep_isSome_mono :
    ∀ (ps : List (String × Option String)) (m : Dict) (k : String),
      (Dict.get m k).isSome = true →
      (Dict.get (ps.foldl overrideStep m) k).isSome = true := by
  intro ps
  induction ps with
  | nil => intro m k h; exact h
  | cons q qs ih =>
    intro m k h
    refine ih (overrideStep m q) k ?_
    obtain ⟨name, o⟩ := q
    cases o with
    | none => exact h
    | some v =>
      unfold overrideStep
      dsimp only
      split
      · exact Dict.get_set_isSome m name v k h
      · exact h

lemma foldl_overrideStep_get_not_mem :
    ∀ (ps : List (String × Option String)) (m : Dict) (k : String),
      (∀ p ∈ ps, p.1 ≠ k) → Dict.get (ps.foldl overrideStep m) k = Dict.get m k := by
  intro ps
  induction ps with
  | nil => intro m k _; rfl
  | cons q qs ih =>
    intro m k h
    simp only [List.foldl_cons]
    rw [ih (overrideStep m q) k (fun p hp => h p (List.mem_cons_of_mem q hp))]
    exact overrideStep_get_ne m q k (h q (List.mem_cons_self q qs))

lemma applyOverrides_get_not_override (ui m : Dict) (k : String)
    (h : ∀ q ∈ OVERRIDE_SOURCES, q.1 ≠ k) :
    Dict.get (applyOverrides ui m) k = Dict.get m k := by
  unfold applyOverrides
  refine foldl_overrideStep_get_not_mem (manual_overrides ui) m k ?_
  intro p hp
  have hrw : manual_overrides ui = OVERRIDE_SOURCES.map (fun q => (q.1, Dict.get ui q.2)) := rfl
  rw [hrw] at hp
  obtain ⟨q, hq, rfl⟩ := List.mem_map.mp hp
  exact h q hq

lemma applyOverrides_isSome_mono (ui m : Dict) (k : String)
    (h : (Dict.get m k).isSome = true) :
    (Dict.get (applyOverrides ui m) k).isSome = true :=
  foldl_overrideStep_isSome_mono (manual_overrides ui) m k h

lemma parseOutcome_ne_nil {o : Option (List (String × String))} {l : List (String × String)}
    (h : parseOutcome o = some l) : l ≠ [] := by
  cases o with
  | none => exact absurd h (by simp [parseOutcome])
  | some l2 =>
    replace h : (if l2.isEmpty = true then none else some l2 :
        Option (List (String × String))) = some l := h
    by_cases hne : l2.isEmpty = true
    · rw [if_pos hne] at h
      exact absurd h (by simp)
    · rw [if_neg hne] at h
      obtain rfl := Option.some.inj h
      intro hnil
      exact hne (by rw [hnil]; rfl)

lemma attemptLoop_some_ne_nil (oracle : Oracle) (ks : List String) :
    ∀ (fuel rc : Nat) (l : List (String × String)),
      attemptLoop oracle ks rc fuel = some l → l ≠ [] := by
  intro fuel
  induction fuel with
  | zero => intro rc l h; exact absurd h (by simp [attemptLoop])
  | succ n ih =>
    intro rc l h
    unfold attemptLoop at h
    cases hp : parseOutcome (oracle ks rc) with
    | some l2 =>
      rw [hp] at h
      exact (Option.some.inj h) ▸ parseOutcome_ne_nil hp
    | none =>
      rw [hp] at h
      exact ih (rc + 1) l h

lemma attemptBatch_some_ne_nil (oracle : Oracle) (ks : List String)
    (l : List (String × String)) (h : attemptBatch oracle ks = some l) : l ≠ [] :=
  attemptLoop_some_ne_nil oracle ks RETRY_LIMIT 0 l h

lemma batchKeys_disjoint_lt {all_keys : List String} (hnodup : all_keys.Nodup)
    {i j : Nat} (hij : i < j) {k : String}
    (hi : k ∈ batchKeys all_keys i) (hj : k ∈ batchKeys all_keys j) : False := by
  have hmn : (all_keys.drop (i * BATCH_SIZE)).Nodup :=
    hnodup.sublist (List.drop_sublist _ _)
  have hdisj := List.disjoint_take_drop hmn (Nat.le_refl BATCH_SIZE)
  refine hdisj hi ?_
  have hle : i * BATCH_SIZE + BATCH_SIZE ≤ j * BATCH_SIZE := by
    have h1 : (i + 1) * BATCH_SIZE ≤ j * BATCH_SIZE := Nat.mul_le_mul_right _ hij
    rw [Nat.succ_mul] at h1
    exact h1
  have h1 : k ∈ all_keys.drop (j * BATCH_SIZE) := List.take_subset _ _ hj
  have h2 : all_keys.drop (j * BATCH_SIZE) =
      (all_keys.drop (i * BATCH_SIZE + BATCH_SIZE)).drop
        (j * BATCH_SIZE - (i * BATCH_SIZE + BATCH_SIZE)) := by
    rw [List.drop_drop]
    congr 1
    omega
  rw [List.drop_drop]
  rw [h2] at h1
  exact List.drop_subset _ _ h1

lemma batchKeys_disjoint {all_keys : List String} (hnodup : all_keys.Nodup)
    {i j : Nat} (hij : i ≠ j) {k : String}
    (hi : k ∈ batchKeys all_keys i) (hj : k ∈ batchKeys all_keys j) : False := by
  rcases Nat.lt_or_ge i j with h | h
  · exact batchKeys_disjoint_lt hnodup h hi hj
  · exact batchKeys_disjoint_lt hnodup (by omega) hj hi

lemma countP_lt_length {α : Type} (l : List α) (p : α → Bool) (a : α)
    (ha : a ∈ l) (hpa : p a = false) : l.countP p < l.length := by
  refine Nat.lt_of_le_of_ne (List.countP_le_length p) ?_
  intro heq
  have h2 := List.countP_eq_length.mp heq a ha
  rw [hpa] at h2
  exact Bool.false_ne_true h2

/-- C5: per-batch failure is isolated.  With the backend abstracted as an
oracle, suppose batch `f` fails all attempts of the bounded retry loop
(`retry_count < RETRY_LIMIT = 2`, every attempt issued with the same batch
keys), while every other batch `i` succeeds with a parsed object `d i`
covering exactly its requested keys; the Structure's keys are unique, the
failed batch's keys are not override keys, some succeeding batch exists,
and binding `b` of the failed batch has an original label supplied by no
succeeding batch nor override.  Then the failed batch is skipped
(`attemptBatch` yields none), every key returned by a succeeding batch is
present in the final ContentMap, every key of the failed batch is left
unfilled, the map is non-empty so the run proceeds to writing, and the
reported fill count is strictly below the total Binding count. -/
theorem batch_failure_isolated (oracle : Oracle) (ui : Dict) (items : List Binding)
    (f : Nat) (d : Nat → List (String × String)) (doc : WDoc)
    (hfail : ∀ j, j < RETRY_LIMIT →
      parseOutcome (oracle (batchKeys (items.map Binding.key_text) f) j) = none)
    (hsucc : ∀ i, i < ((items.map Binding.key_text).length + (BATCH_SIZE - 1)) / BATCH_SIZE →
      i ≠ f → attemptBatch oracle (batchKeys (items.map Binding.key_text) i) = some (d i))
    (hdk : ∀ i, i < ((items.map Binding.key_text).length + (BATCH_SIZE - 1)) / BATCH_SIZE →
      i ≠ f → (d i).map Prod.fst = batchKeys (items.map Binding.key_text) i)
    (hnodup : (items.map Binding.key_text).Nodup)
    (hovr : ∀ q ∈ OVERRIDE_SOURCES, q.1 ∉ batchKeys (items.map Binding.key_text) f)
    (hex : ∃ i, i < ((items.map Binding.key_text).length + (BATCH_SIZE - 1)) / BATCH_SIZE ∧
      i ≠ f)
    (b : Binding) (hb : b ∈ items)
    (hbf : b.key_text ∈ batchKeys (items.map Binding.key_text) f)
    (hbo1 : ∀ i, i < ((items.map Binding.key_text).length + (BATCH_SIZE - 1)) / BATCH_SIZE →
      i ≠ f → b.original_text ∉ (d i).map Prod.fst)
    (hbo2 : ∀ q ∈ OVERRIDE_SOURCES, q.1 ≠ b.original_text) :
    attemptBatch oracle (batchKeys (items.map Binding.key_text) f) = none ∧
    (∀ i, i < ((items.map Binding.key_text).length + (BATCH_SIZE - 1)) / BATCH_SIZE →
      i ≠ f → ∀ k ∈ (d i).map Prod.fst,
        (Dict.get (generate_deep_content_chunked oracle ui items) k).isSome = true) ∧
    (∀ k ∈ batchKeys (items.map Binding.key_text) f,
      Dict.get (generate_deep_content_chunked oracle ui items) k = none) ∧
    generate_deep_content_chunked oracle ui items ≠ [] ∧
    (mainFill (generate_deep_content_chunked oracle ui items) doc items).2 <
      items.length := by
  have hN : generate_deep_content_chunked oracle ui items =
      applyOverrides ui (batchFold oracle (items.map Binding.key_text)
        (((items.map Binding.key_text).length + (BATCH_SIZE - 1)) / BATCH_SIZE)) := rfl
  have h1 : attemptBatch oracle (batchKeys (items.map Binding.key_text) f) = none :=
    attemptBatch_none oracle _ hfail
  have h2 : ∀ i, i < ((items.map Binding.key_text).length + (BATCH_SIZE - 1)) / BATCH_SIZE →
      i ≠ f → ∀ k ∈ (d i).map Prod.fst,
      (Dict.get (generate_deep_content_chunked oracle ui items) k).isSome = true := by
    intro i hi hne k hk
    rw [hN]
    exact applyOverrides_isSome_mono ui _ k
      (get_batchFold_isSome oracle _ _ i (d i) k hi (hsucc i hi hne) hk)
  have hcore : ∀ k : String,
      (∀ i, i < ((items.map Binding.key_text).length + (BATCH_SIZE - 1)) / BATCH_SIZE →
        i ≠ f → k ∉ (d i).map Prod.fst) →
      Dict.get (batchFold oracle (items.map Binding.key_text)
        (((items.map Binding.key_text).length + (BATCH_SIZE - 1)) / BATCH_SIZE)) k = none := by
    intro k hk
    cases hget : Dict.get (batchFold oracle (items.map Binding.key_text)
        (((items.map Binding.key_text).length + (BATCH_SIZE - 1)) / BATCH_SIZE)) k with
    | none => rfl
    | some v =>
      exfalso
      have hsome : (Dict.get (batchFold oracle (items.map Binding.key_text)
          (((items.map Binding.key_text).length + (BATCH_SIZE - 1)) / BATCH_SIZE)) k).isSome =
          true := by rw [hget]; rfl
      obtain ⟨i, hi, l, hat, hkl⟩ := get_batchFold_mem_batches oracle _ _ k hsome
      by_cases hif : i = f
      · subst hif
        rw [h1] at hat
        exact Option.noConfusion hat
      · have hld : l = d i := Option.some.inj (hat.symm.trans (hsucc i hi hif))
        exact hk i hi hif (hld ▸ hkl)
  have h3 : ∀ k ∈ batchKeys (items.map Binding.key_text) f,
      Dict.get (generate_deep_content_chunked oracle ui items) k = none := by
    intro k hkf
    rw [hN]
    rw [applyOverrides_get_not_override ui _ k
      (fun q hq heq => hovr q hq (by rw [heq]; exact hkf))]
    refine hcore k ?_
    intro i hi hne hmem
    rw [hdk i hi hne] at hmem
    exact batchKeys_disjoint hnodup hne hmem hkf
  have h4 : generate_deep_content_chunked oracle ui items ≠ [] := by
    obtain ⟨i, hi, hne⟩ := hex
    have hdnil : d i ≠ [] := attemptBatch_some_ne_nil oracle _ (d i) (hsucc i hi hne)
    obtain ⟨p, hp⟩ : ∃ p, p ∈ d i := by
      cases hd : d i with
      | nil => exact absurd hd hdnil
      | cons p ps => exact ⟨p, List.mem_cons_self p ps⟩
    have hkmem : p.1 ∈ (d i).map Prod.fst := List.mem_map.mpr ⟨p, hp, rfl⟩
    have hks := h2 i hi hne p.1 hkmem
    intro hnil
    rw [hnil] at hks
    simp [Dict.get, List.find?] at hks
  have h5 : (mainFill (generate_deep_content_chunked oracle ui items) doc items).2 <
      items.length := by
    unfold mainFill
    rw [if_neg (fun hemp => h4 (List.isEmpty_iff.mp hemp))]
    rw [fillStructure_snd]
    refine countP_lt_length items _ b hb ?_
    have hkey : Dict.get (generate_deep_content_chunked oracle ui items) b.key_text = none :=
      h3 b.key_text hbf
    have horig : Dict.get (generate_deep_content_chunked oracle ui items) b.original_text =
        none := by
      rw [hN]
      rw [applyOverrides_get_not_override ui _ _ hbo2]
      exact hcore b.original_text hbo1
    show truthyStr (lookupContent (generate_deep_content_chunked oracle ui items) b) = false
    unfold lookupContent
    rw [hkey, horig]
    decide
  exact ⟨h1, h2, h3, h4, h5⟩

def kName (n : Nat) : String := String.mk ['k', Char.ofNat (65 + n)]

def itemsC5 : List Binding := (List.range 46).map (fun n => ⟨kName n, "XO", (0, n, 1), false⟩)

def dC5 : Nat → List (String × String) := fun i =>
  (batchKeys (itemsC5.map Binding.key_text) i).map (fun k => (k, "v"))

def oracleC5 : Oracle := fun ks _ =>
  if ks = [kName 45] then none else some (ks.map (fun k => (k, "v")))

/-- C5 witness: 46 keys give two batches; batch 1 (the one-key batch)
fails both attempts, batch 0 succeeds — batch 1's key is absent, the map
is non-empty, and the fill count is below the binding count. -/
theorem batch_failure_isolated_witness :
    attemptBatch oracleC5 (batchKeys (itemsC5.map Binding.key_text) 1) = none ∧
    Dict.get (generate_deep_content_chunked oracleC5 [] itemsC5) (kName 45) = none ∧
    generate_deep_content_chunked oracleC5 [] itemsC5 ≠ [] ∧
    (mainFill (generate_deep_content_chunked oracleC5 [] itemsC5) ⟨[]⟩ itemsC5).2 <
      itemsC5.length := by
  have h := batch_failure_isolated oracleC5 [] itemsC5 1 dC5 ⟨[]⟩
    (fun j _ => rfl)
    (by intro i hi hne
        have hi2 : i < 2 := hi
        have h0 : i = 0 := by omega
        subst h0
        rfl)
    (by intro i hi hne
        have hi2 : i < 2 := hi
        have h0 : i = 0 := by omega
        subst h0
        rfl)
    (by decide)
    (by decide)
    ⟨0, by decide, by decide⟩
    ⟨kName 45, "XO", (0, 45, 1), false⟩
    (by decide)
    (by decide)
    (by intro i hi hne
        have hi2 : i < 2 := hi
        have h0 : i = 0 := by omega
        subst h0
        decide)
    (by decide)
  exact ⟨h.1, h.2.2.1 (kName 45) (by decide), h.2.2.2.1, h.2.2.2.2⟩

end SmartClass
